import Mathlib

/-!
Verification of the Camelot status-history / party model against its
natural-language specification.

The development shallowly embeds the relevant Python code:

* `camelot/model/type_and_status.py` — `StatusMixin.change_status`,
  `StatusMixin.get_status_history_at`, `StatusMixin.current_status` and its
  SQL expression form `StatusMixin.current_status_query`;
* `camelot/model/party.py` — `Country.get_or_create`, `Address.get_or_create`,
  `PartyAddress.__setattr__`, `Party._set_contact_mechanism`,
  `PartyContactMechanism.mechanism_setter`, `PartyAdmin.flush`;
* `camelot/admin/validator/entity_validator.py` — `EntityValidator.validate_object`;
* `camelot/view/wizard/import_data.py` — `InputTableModel`;
* `camelot/view/controls/editors-bak/embeddedmany2oneeditor.py` —
  `EmbeddedMany2OneEditor.setEntity`.

Dates are embedded as `Int` (proleptic Gregorian ordinals, matching Python's
`datetime.date.toordinal`); nullable date columns become `Option Int`.
The per-entity status-history collection (both the ORM relationship
`self.status` and the session query filtered on `status_for == self`) is a
`List StatusHistoryRec` in insertion order; `session.flush` appending the
newly constructed record at the end.
-/

namespace Camelot

/-- `camelot.model.authentication.end_of_times`: the far-future sentinel date
`datetime.date(2400, 12, 31)`, as its proleptic Gregorian ordinal. -/
def end_of_times : Int := 876582

/-- One row of an entity's status-history table
(mixin `StatusHistory` of `camelot/model/type_and_status.py`):
`status_from_date` / `status_thru_date` are nullable date columns, the audit
columns `from_date` / `thru_date` are non-nullable, `classified_by` is the
status classification (an enumeration value or `StatusType` id), and `id` is
the primary key. -/
structure StatusHistoryRec where
  id : Nat
  classified_by : Nat
  status_from_date : Option Int
  status_thru_date : Option Int
  from_date : Int
  thru_date : Int
  deriving Repr, DecidableEq

/-- SQL `<=` on two nullable date columns: a comparison with NULL is unknown,
so the row is not selected. -/
def sqlLeOpt : Option Int → Option Int → Bool
  | some a, some b => a ≤ b
  | _, _ => false

/-- Python 2 `<=` between a nullable date and a date: `None` compares smaller
than every date (`None <= d` is `True`). -/
def py2LeNoneDate (a : Option Int) (d : Int) : Bool :=
  match a with
  | none => true
  | some x => x ≤ d

/-- Python 2 `>=` between a nullable date and a date: `None` compares smaller
than every date (`None >= d` is `False`). -/
def py2GeNoneDate (a : Option Int) (d : Int) : Bool :=
  match a with
  | none => false
  | some x => d ≤ x

/-- The WHERE clause of `change_status`'s `old_status_filter` and of
`current_status_query`, specialised to one row: the row's validity interval
`[status_from_date, status_thru_date]` contains date `d`
(SQL semantics: NULL bounds never match). -/
def containsDate (r : StatusHistoryRec) (d : Int) : Bool :=
  sqlLeOpt r.status_from_date (some d) && sqlLeOpt (some d) r.status_thru_date

/-- Mutating the first element of a list that satisfies `p` in place, leaving
the rest untouched: this is `query.filter(p).first()` followed by attribute
assignments on the returned ORM object. -/
def updateFirst (p : α → Bool) (f : α → α) : List α → List α
  | [] => []
  | x :: xs => if p x then f x :: xs else x :: updateFirst p f xs

/-- `StatusMixin.change_status(new_status, status_from_date, status_thru_date)`
of `camelot/model/type_and_status.py`.

State is the entity's list of status-history rows plus the next fresh primary
key; `today` is `datetime.date.today()`.  The body:

* `if not status_from_date: status_from_date = date.today()` (dates are always
  truthy in Python, so only `None` triggers the default);
* the first session row of this entity whose validity interval contains
  `status_from_date` (if any) gets `thru_date = today - 1 day` and
  `status_thru_date = status_from_date - 1 day`;
* a new row is constructed with the given classification and validity
  interval and audit columns `[today, end_of_times]`, and flushed (appended).

The Python default for `status_thru_date` is `end_of_times()`. -/
def change_status (history : List StatusHistoryRec) (nextId : Nat) (today : Int)
    (new_status : Nat) (status_from_date : Option Int)
    (status_thru_date : Int := end_of_times) :
    List StatusHistoryRec × Nat :=
  let sfd : Int := status_from_date.getD today
  let history' := updateFirst (fun r => containsDate r sfd)
    (fun r => { r with thru_date := today - 1, status_thru_date := some (sfd - 1) })
    history
  (history' ++ [{ id := nextId, classified_by := new_status,
                  status_from_date := some sfd,
                  status_thru_date := some status_thru_date,
                  from_date := today, thru_date := end_of_times }],
   nextId + 1)

/-- `StatusMixin.get_status_history_at(status_date)`: defaults `status_date`
to today, then returns the first record of `self.status` with
`status_from_date <= status_date and status_thru_date >= status_date`
(Python 2 comparisons, where `None` is smaller than every date),
or `None` if none matches. -/
def get_status_history_at (status : List StatusHistoryRec) (today : Int)
    (status_date : Option Int) : Option StatusHistoryRec :=
  let d := status_date.getD today
  status.find? (fun r => py2LeNoneDate r.status_from_date d && py2GeNoneDate r.status_thru_date d)

/-- The Python getter `StatusMixin.current_status`: the `classified_by` of
`get_status_history_at()` (at today), if any. -/
def current_status (status : List StatusHistoryRec) (today : Int) : Option Nat :=
  (get_status_history_at status today none).map (fun r => r.classified_by)

/-- `ORDER BY status_history.id DESC`, as an insertion sort. -/
def insertByIdDesc (r : StatusHistoryRec) : List StatusHistoryRec → List StatusHistoryRec
  | [] => [r]
  | x :: xs => if x.id ≤ r.id then r :: x :: xs else x :: insertByIdDesc r xs

/-- See `insertByIdDesc`. -/
def orderByIdDesc (l : List StatusHistoryRec) : List StatusHistoryRec :=
  l.foldr insertByIdDesc []

/-- `StatusMixin.current_status_query` evaluated on the entity's rows: the
`classified_by` of the rows whose validity interval contains the current
date (SQL semantics), ordered by descending id, limited to one. -/
def current_status_query (status : List StatusHistoryRec) (today : Int) : Option Nat :=
  (orderByIdDesc (status.filter (fun r => containsDate r today))).head?.map
    (fun r => r.classified_by)

/-- Validity intervals of the records are pairwise non-overlapping: no date is
contained in the validity intervals of two records of the list. -/
def pairwiseNonOverlapping (l : List StatusHistoryRec) : Prop :=
  List.Pairwise (fun r s => ∀ d : Int, ¬(containsDate r d = true ∧ containsDate s d = true)) l

/-- A sequence of `change_status` calls starting from an empty status
history: each call `(s, f, t)` passes classification `s`, an explicit
`status_from_date = f` and an explicit `status_thru_date = t` (a call that
relies on the Python defaults is the call `(s, today, end_of_times)`). -/
def runChanges (today : Int) (calls : List (Nat × Int × Int)) :
    List StatusHistoryRec × Nat :=
  calls.foldl (fun acc c => change_status acc.1 acc.2 today c.1 (some c.2.1) c.2.2)
    ([], 0)

/-- A row of the `geographic_boundary` table restricted to the `Country`
subclass (`camelot/model/party.py`): its ISO `code` and `name`. -/
structure CountryRow where
  code : String
  name : String
  deriving Repr, DecidableEq

/-- `Country.get_or_create(code, name)`: `Country.query.filter_by(code=code).first()`;
when no row matches, a new `Country(code=code, name=name)` is constructed and
flushed.  The database is the list of country rows in insertion order. -/
def country_get_or_create (db : List CountryRow) (code name : String) :
    CountryRow × List CountryRow :=
  match db.find? (fun c => c.code == code) with
  | some country => (country, db)
  | none => (⟨code, name⟩, db ++ [⟨code, name⟩])

/-- A row of the `address` table (`camelot/model/party.py`): `street1`,
nullable `street2`, and the id of the required `city`. -/
structure AddressRow where
  street1 : String
  street2 : Option String
  city : Nat
  deriving Repr, DecidableEq

/-- `Address.get_or_create(street1, street2, city)`:
`cls.query.filter_by(street1=street1, street2=street2, city=city).first()`;
when no row matches, a new `Address` with those three fields is constructed
and flushed. -/
def address_get_or_create (db : List AddressRow) (street1 : String)
    (street2 : Option String) (city : Nat) : AddressRow × List AddressRow :=
  match db.find? (fun a => a.street1 == street1 && a.street2 == street2 && a.city == city) with
  | some address => (address, db)
  | none => (⟨street1, street2, city⟩, db ++ [⟨street1, street2, city⟩])

/-- The mutable state of an `Address` entity as touched by
`PartyAddress.__setattr__`: fields are `Option` because an attribute
assignment may write any value, including `None`. -/
structure AddressObj where
  street1 : Option String
  street2 : Option String
  city : Option Nat
  deriving Repr, DecidableEq

/-- The state of a `PartyAddress` entity relevant to its virtual
`address_...` attributes: the related `address` (if any) and the three hidden
attributes `_address_street1`, `_address_street2`, `_address_city` that
`__new__` initialises to `None`. -/
structure PartyAddressObj where
  address : Option AddressObj
  _address_street1 : Option String
  _address_street2 : Option String
  _address_city : Option Nat
  deriving Repr, DecidableEq

/-- `PartyAddress.__new__`: the hidden attributes start out as `None` and no
related address exists. -/
def partyAddress_new : PartyAddressObj :=
  { address := none, _address_street1 := none,
    _address_street2 := none, _address_city := none }

/-- The guard and creation step shared by every branch of
`PartyAddress.__setattr__` for an `address_...` attribute: after the hidden
attribute was assigned, if a related address exists the value is written
through to it (done by the callers below); otherwise, when both
`_address_street1` and `_address_city` are not `None`, a related
`Address(street1=_address_street1, city=_address_city)` is created
(`street2` is not passed, so it defaults to `None`). -/
def partyAddress_maybe_create (pa : PartyAddressObj) : PartyAddressObj :=
  if pa._address_street1 ≠ none ∧ pa._address_city ≠ none then
    { pa with address := some { street1 := pa._address_street1, street2 := none,
                                city := pa._address_city } }
  else pa

/-- `PartyAddress.__setattr__('address_street1', v)`. -/
def partyAddress_set_address_street1 (pa : PartyAddressObj) (v : Option String) :
    PartyAddressObj :=
  let pa := { pa with _address_street1 := v }
  match pa.address with
  | some a => { pa with address := some { a with street1 := v } }
  | none => partyAddress_maybe_create pa

/-- `PartyAddress.__setattr__('address_street2', v)`. -/
def partyAddress_set_address_street2 (pa : PartyAddressObj) (v : Option String) :
    PartyAddressObj :=
  let pa := { pa with _address_street2 := v }
  match pa.address with
  | some a => { pa with address := some { a with street2 := v } }
  | none => partyAddress_maybe_create pa

/-- `PartyAddress.__setattr__('address_city', v)`. -/
def partyAddress_set_address_city (pa : PartyAddressObj) (v : Option Nat) :
    PartyAddressObj :=
  let pa := { pa with _address_city := v }
  match pa.address with
  | some a => { pa with address := some { a with city := v } }
  | none => partyAddress_maybe_create pa

/-- `PartyAdmin.flush(party)` (`camelot/model/party.py`), restricted to its
session-state effect: when the party is in the session's deleted set, every
`party_contact_mechanism` of the party is marked deleted as well
(`session.delete(party_contact_mechanism)`); otherwise the deleted set is
unchanged.  `sessionDeleted` is the set of object ids pending deletion and
`pcms` the ids of the party's contact-mechanism records. -/
def partyAdmin_flush_deleted (sessionDeleted : List Nat) (partyId : Nat)
    (pcms : List Nat) : List Nat :=
  if partyId ∈ sessionDeleted then sessionDeleted ++ pcms else sessionDeleted

/-- The state of a `ContactMechanism` entity as touched by the party setters:
its `mechanism`, a `VirtualAddress` pair (type, value) such as
`('email', 'a@b.example')`, nullable while under construction. -/
structure ContactMechanismObj where
  mechanism : Option (String × String)
  deriving Repr, DecidableEq

/-- The state of a `PartyContactMechanism` entity as touched by the party
setters: its primary key (`None` until the row is flushed, a positive
integer afterwards) and the related `contact_mechanism`, if any. -/
structure PartyContactMechanismObj where
  id : Option Nat
  contact_mechanism : Option ContactMechanismObj
  deriving Repr, DecidableEq

/-- The Python truthiness test `value and value[1]` on a `VirtualAddress`
argument: `value` is not `None` and its second component is a non-empty
string. -/
def truthyMechanism : Option (String × String) → Bool
  | none => false
  | some m => m.2 ≠ ""

/-- The guard of `Party._set_contact_mechanism`'s loop, specialised to one
`party_contact_mechanism`: it has a related `contact_mechanism`, whose
`mechanism` is not `None` and whose type component equals `described_by`. -/
def pcmMatches (described_by : String) (pcm : PartyContactMechanismObj) : Bool :=
  match pcm.contact_mechanism with
  | none => false
  | some cm =>
    match cm.mechanism with
    | none => false
    | some m => m.1 == described_by

/-- `Party._set_contact_mechanism(described_by, value)`
(`camelot/model/party.py`, backing the `email`/`phone`/`fax` setters).
State is the party's `contact_mechanisms` collection plus the session's
deleted id set.  The loop looks for the first `party_contact_mechanism`
whose mechanism type equals `described_by`:

* found and `value and value[1]` truthy: the related contact mechanism's
  `mechanism` is overwritten in place;
* found and falsy: the `party_contact_mechanism` is removed from the
  collection and, when its `id` is truthy (a flushed, non-zero key),
  `session.delete`d;
* no match and `value and value[1]` truthy: a new
  `ContactMechanism(mechanism=value)` and a new `PartyContactMechanism`
  related to it are created and appended. -/
def _set_contact_mechanism (described_by : String) (value : Option (String × String)) :
    List PartyContactMechanismObj → List Nat →
    List PartyContactMechanismObj × List Nat
  | [], deleted =>
    if truthyMechanism value then
      ([{ id := none, contact_mechanism := some { mechanism := value } }], deleted)
    else
      ([], deleted)
  | pcm :: rest, deleted =>
    match pcm.contact_mechanism with
    | some cm =>
      match cm.mechanism with
      | some m =>
        if m.1 == described_by then
          if truthyMechanism value then
            ({ pcm with contact_mechanism := some { cm with mechanism := value } } :: rest,
             deleted)
          else
            (rest,
             match pcm.id with
             | some i => if i ≠ 0 then deleted ++ [i] else deleted
             | none => deleted)
        else
          let r := _set_contact_mechanism described_by value rest deleted
          (pcm :: r.1, r.2)
      | none =>
        let r := _set_contact_mechanism described_by value rest deleted
        (pcm :: r.1, r.2)
    | none =>
      let r := _set_contact_mechanism described_by value rest deleted
      (pcm :: r.1, r.2)

/-- `PartyContactMechanism.mechanism_setter(value)` (`camelot/model/party.py`):
for a non-`None` value, writes through to an existing related
`ContactMechanism`, and creates one (`ContactMechanism(mechanism=value)`)
when none exists. -/
def mechanism_setter (pcm : PartyContactMechanismObj)
    (value : Option (String × String)) : PartyContactMechanismObj :=
  match value with
  | none => pcm
  | some v =>
    match pcm.contact_mechanism with
    | some cm => { pcm with contact_mechanism := some { cm with mechanism := some v } }
    | none => { pcm with contact_mechanism := some { mechanism := some v } }

/-- An ORM session as seen by `EntityValidator.validate_object`: just its set
of objects pending deletion, by object id. -/
structure OrmSession where
  deleted : List Nat
  deriving Repr, DecidableEq

/-- An ORM-mapped object as seen by `EntityValidator.validate_object`: its
identity and the session it is attached to, if any
(`orm.object_session(obj)`). -/
structure OrmObj where
  oid : Nat
  session : Option OrmSession
  deriving Repr, DecidableEq

/-- `EntityValidator.validate_object(obj)`
(`camelot/admin/validator/entity_validator.py`): a detached object
(`object_session(obj) == None`) or one in its session's deleted set is
reported valid (empty message list) without inspecting any field; otherwise
the inherited `ObjectValidator.validate_object` runs.  The inherited
validator (not part of this repository) is passed in as `superValidate`. -/
def entityValidator_validate_object (superValidate : OrmObj → List String)
    (obj : OrmObj) : List String :=
  match obj.session with
  | none => []
  | some s => if obj.oid ∈ s.deleted then [] else superValidate obj

/-- `InputTableModel` of `camelot/view/wizard/import_data.py`:
`self.arraydata = list(datain)` and `self.headerdata = headerdata`. -/
structure InputTableModel where
  arraydata : List (List String)
  headerdata : List String
  deriving Repr, DecidableEq

/-- `InputTableModel.__init__(datain, headerdata)`. -/
def inputTableModel_init (datain : List (List String)) (headerdata : List String) :
    InputTableModel :=
  { arraydata := datain, headerdata := headerdata }

/-- `InputTableModel.rowCount`: `len(self.arraydata)`. -/
def inputTableModel_rowCount (m : InputTableModel) : Nat :=
  m.arraydata.length

/-- `InputTableModel.columnCount`: `len(self.arraydata[0])`.  The unguarded
index of row 0 raises `IndexError` on empty data, embedded as `none`. -/
def inputTableModel_columnCount (m : InputTableModel) : Option Nat :=
  (m.arraydata.get? 0).map List.length

/-- The value handed to `EmbeddedMany2OneEditor.setEntity`'s
`set_entity_instance` by the `entity_instance_getter`: the `ValueLoading`
sentinel, an actual entity instance (truthy), or `None` (falsy). -/
inductive EditorValue where
  | valueLoading
  | entity (e : Nat)
  | noEntity
  deriving Repr, DecidableEq

/-- The instance the editor ends up holding: an existing entity, or the fresh
blank instance `self.admin.entity()`. -/
inductive EditorInstance where
  | existing (e : Nat)
  | fresh
  deriving Repr, DecidableEq

/-- `set_entity_instance` inside `EmbeddedMany2OneEditor.setEntity`
(`camelot/view/controls/editors-bak/embeddedmany2oneeditor.py`):
`if entity==ValueLoading: raise Exception('Wooha')`; a truthy entity becomes
the held instance; otherwise a fresh `self.admin.entity()` instance is held.
The raised exception is embedded as `Except.error` with its message. -/
def set_entity_instance : EditorValue → Except String EditorInstance
  | .valueLoading => .error "Wooha"
  | .entity e => .ok (.existing e)
  | .noEntity => .ok .fresh

/-- The invariant a status history keeps under a monotone sequence of
`change_status` calls: every record has non-null validity dates with a start
date at most `F` (the latest call's start date), and the validity intervals
are pairwise non-overlapping. -/
def MonotoneHistoryInv (h : List StatusHistoryRec) (F : Int) : Prop :=
  (∀ r ∈ h, ∃ a b, r.status_from_date = some a ∧ r.status_thru_date = some b ∧ a ≤ F) ∧
  pairwiseNonOverlapping h

end Camelot

namespace Camelot

/-! ### Helper lemmas -/

theorem updateFirst_of_forall_false {p : α → Bool} {f : α → α} :
    ∀ {l : List α}, (∀ x ∈ l, p x = false) → updateFirst p f l = l := by
  intro l
  induction l with
  | nil => intro _; rfl
  | cons x xs ih =>
    intro h
    simp only [updateFirst, h x (List.mem_cons_self x xs)]
    simp [ih fun y hy => h y (List.mem_cons_of_mem x hy)]

theorem updateFirst_append_left {p : α → Bool} {f : α → α} (l₁ l₂ : List α)
    (h : ∀ x ∈ l₁, p x = false) :
    updateFirst p f (l₁ ++ l₂) = l₁ ++ updateFirst p f l₂ := by
  induction l₁ with
  | nil => rfl
  | cons x xs ih =>
    simp only [List.cons_append, updateFirst, h x (List.mem_cons_self x xs)]
    simp [ih fun y hy => h y (List.mem_cons_of_mem x hy)]

theorem find?_congr_mem {p q : α → Bool} :
    ∀ {l : List α}, (∀ x ∈ l, p x = q x) → l.find? p = l.find? q := by
  intro l
  induction l with
  | nil => intro _; rfl
  | cons x xs ih =>
    intro h
    simp only [List.find?]
    rw [h x (List.mem_cons_self x xs)]
    cases q x with
    | true => rfl
    | false => exact ih fun y hy => h y (List.mem_cons_of_mem x hy)

theorem find?_of_filter_singleton {p : α → Bool} {x : α} :
    ∀ {l : List α}, l.filter p = [x] → l.find? p = some x := by
  intro l
  induction l with
  | nil => intro h; simp at h
  | cons a as ih =>
    intro h
    rw [List.filter_cons] at h
    by_cases hpa : p a = true
    · simp only [hpa, if_true] at h
      obtain ⟨rfl, -⟩ := List.cons_eq_cons.mp h
      simp [List.find?, hpa]
    · have hpa' : p a = false := Bool.eq_false_iff.mpr hpa
      simp only [hpa', Bool.false_eq_true, if_false] at h
      simp [List.find?, hpa', ih h]

theorem find?_append_none {p : α → Bool} {l₁ : List α} (l₂ : List α)
    (h : l₁.find? p = none) : (l₁ ++ l₂).find? p = l₂.find? p := by
  induction l₁ with
  | nil => rfl
  | cons x xs ih =>
    simp only [List.find?] at h ⊢
    cases hx : p x with
    | true => simp [hx] at h
    | false =>
      rw [hx] at h
      simp only [List.cons_append, List.find?, hx]
      exact ih h

theorem containsDate_some_iff {r : StatusHistoryRec} {a b : Int}
    (ha : r.status_from_date = some a) (hb : r.status_thru_date = some b) (d : Int) :
    containsDate r d = true ↔ (a ≤ d ∧ d ≤ b) := by
  simp [containsDate, sqlLeOpt, ha, hb]

theorem containsDate_true_elim {r : StatusHistoryRec} {f : Int}
    (h : containsDate r f = true) :
    ∃ a b, r.status_from_date = some a ∧ r.status_thru_date = some b ∧ a ≤ f ∧ f ≤ b := by
  cases ha : r.status_from_date with
  | none => simp [containsDate, sqlLeOpt, ha] at h
  | some a =>
    cases hb : r.status_thru_date with
    | none => simp [containsDate, sqlLeOpt, ha, hb] at h
    | some b => exact ⟨a, b, rfl, rfl, (containsDate_some_iff ha hb f).mp h⟩

theorem updateFirst_cases (p : α → Bool) (g : α → α) (l : List α) :
    ((∀ x ∈ l, p x = false) ∧ updateFirst p g l = l) ∨
    ∃ l₁ x l₂, l = l₁ ++ x :: l₂ ∧ (∀ y ∈ l₁, p y = false) ∧ p x = true ∧
      updateFirst p g l = l₁ ++ g x :: l₂ := by
  induction l with
  | nil => left; exact ⟨by simp, rfl⟩
  | cons a as ih =>
    cases hpa : p a with
    | true =>
      right
      exact ⟨[], a, as, rfl, by simp, hpa, by simp [updateFirst, hpa]⟩
    | false =>
      rcases ih with ⟨hall, heq⟩ | ⟨l₁, x, l₂, rfl, hl₁, hx, hupd⟩
      · left
        refine ⟨?_, by simp [updateFirst, hpa, heq]⟩
        intro y hy
        rcases List.mem_cons.mp hy with rfl | hy
        · exact hpa
        · exact hall y hy
      · right
        refine ⟨a :: l₁, x, l₂, rfl, ?_, hx, ?_⟩
        · intro y hy
          rcases List.mem_cons.mp hy with rfl | hy
          · exact hpa
          · exact hl₁ y hy
        · simp [updateFirst, hpa, hupd]

theorem set_contact_mechanism_skip (described_by : String)
    (value : Option (String × String)) (deleted : List Nat)
    (q : PartyContactMechanismObj) (rest : List PartyContactMechanismObj)
    (hq : pcmMatches described_by q = false) :
    _set_contact_mechanism described_by value (q :: rest) deleted =
      (q :: (_set_contact_mechanism described_by value rest deleted).1,
       (_set_contact_mechanism described_by value rest deleted).2) := by
  cases hcm : q.contact_mechanism with
  | none => simp [_set_contact_mechanism, hcm]
  | some cm =>
    cases hm : cm.mechanism with
    | none => simp [_set_contact_mechanism, hcm, hm]
    | some m =>
      have hbeq : (m.1 == described_by) = false := by
        simpa [pcmMatches, hcm, hm] using hq
      simp [_set_contact_mechanism, hcm, hm, hbeq]

theorem set_contact_mechanism_creates (described_by : String)
    (value : Option (String × String)) (deleted : List Nat) :
    ∀ pcms : List PartyContactMechanismObj,
      (∀ pcm ∈ pcms, pcmMatches described_by pcm = false) →
      truthyMechanism value = true →
      _set_contact_mechanism described_by value pcms deleted =
        (pcms ++ [{ id := none, contact_mechanism := some { mechanism := value } }],
         deleted) := by
  intro pcms
  induction pcms with
  | nil =>
    intro _ htruthy
    simp [_set_contact_mechanism, htruthy]
  | cons q rest ih =>
    intro hall htruthy
    rw [set_contact_mechanism_skip described_by value deleted q rest
      (hall q (List.mem_cons_self q rest))]
    rw [ih (fun x hx => hall x (List.mem_cons_of_mem q hx)) htruthy]
    simp

theorem set_contact_mechanism_removes (described_by : String)
    (value : Option (String × String)) (deleted : List Nat)
    (p : PartyContactMechanismObj) (l₂ : List PartyContactMechanismObj) (i : Nat) :
    ∀ l₁ : List PartyContactMechanismObj,
      (∀ q ∈ l₁, pcmMatches described_by q = false) →
      pcmMatches described_by p = true → truthyMechanism value = false →
      p.id = some i → i ≠ 0 →
      _set_contact_mechanism described_by value (l₁ ++ p :: l₂) deleted =
        (l₁ ++ l₂, deleted ++ [i]) := by
  intro l₁
  induction l₁ with
  | nil =>
    intro _ hp htruthy hid hi0
    cases hcm : p.contact_mechanism with
    | none => simp [pcmMatches, hcm] at hp
    | some cm =>
      cases hm : cm.mechanism with
      | none => simp [pcmMatches, hcm, hm] at hp
      | some m =>
        have hbeq : (m.1 == described_by) = true := by
          simpa [pcmMatches, hcm, hm] using hp
        simp [_set_contact_mechanism, hcm, hm, hbeq, htruthy, hid, hi0]
  | cons q l₁ ih =>
    intro hall hp htruthy hid hi0
    rw [List.cons_append, set_contact_mechanism_skip described_by value deleted q _
      (hall q (List.mem_cons_self q l₁))]
    rw [ih (fun x hx => hall x (List.mem_cons_of_mem q hx)) hp htruthy hid hi0]
    simp

/-! ### Claim theorems -/

/-- C10: for an `InputTableModel` built from imported data with at least one
row, `columnCount` is the length of the first row and `rowCount` the number
of rows; on empty data `columnCount`'s unguarded index of row 0 fails
(embedded as `none`), which is why non-emptiness is required. -/
theorem inputTableModel_counts (row : List String) (rest : List (List String))
    (hdr : List String) :
    inputTableModel_columnCount (inputTableModel_init (row :: rest) hdr) = some row.length ∧
    inputTableModel_rowCount (inputTableModel_init (row :: rest) hdr) = (row :: rest).length ∧
    inputTableModel_columnCount (inputTableModel_init [] hdr) = none :=
  ⟨rfl, rfl, rfl⟩

/-- C9: `EntityValidator.validate_object` reports an object not attached to a
session, or one in its session's deleted set, valid (empty message list) no
matter what the inherited field-inspecting validator would say; only
attached, non-deleted objects reach the inherited validation. -/
theorem validate_object_detached_or_deleted (superValidate : OrmObj → List String)
    (obj : OrmObj) :
    (obj.session = none → entityValidator_validate_object superValidate obj = []) ∧
    (∀ s, obj.session = some s → obj.oid ∈ s.deleted →
      entityValidator_validate_object superValidate obj = []) ∧
    (∀ s, obj.session = some s → obj.oid ∉ s.deleted →
      entityValidator_validate_object superValidate obj = superValidate obj) := by
  refine ⟨?_, ?_, ?_⟩
  · intro h
    simp [entityValidator_validate_object, h]
  · intro s hs hdel
    simp [entityValidator_validate_object, hs, hdel]
  · intro s hs hdel
    simp [entityValidator_validate_object, hs, hdel]

/-- C9 witness: a concrete detached object and a concrete deleted object are
both reported valid even though the inherited validator would complain. -/
theorem validate_object_detached_or_deleted_witness :
    entityValidator_validate_object (fun _ => ["missing field"]) ⟨1, none⟩ = [] ∧
    entityValidator_validate_object (fun _ => ["missing field"]) ⟨2, some ⟨[2]⟩⟩ = [] :=
  ⟨(validate_object_detached_or_deleted (fun _ => ["missing field"]) ⟨1, none⟩).1 rfl,
   (validate_object_detached_or_deleted (fun _ => ["missing field"]) ⟨2, some ⟨[2]⟩⟩).2.1
     ⟨[2]⟩ rfl (by simp)⟩

/-- C5 counterexample: the claim that the repository raises no exception of
its own fails — `EmbeddedMany2OneEditor.setEntity`'s `set_entity_instance`
raises the built-in `Exception('Wooha')` when handed the `ValueLoading`
sentinel. -/
theorem setEntity_raises_wooha :
    set_entity_instance EditorValue.valueLoading = Except.error "Wooha" := rfl

/-- C5 amended: the repository defines no exception taxonomy of its own, but
it does raise one built-in exception itself: `set_entity_instance` raises
exactly `Exception('Wooha')`, exactly on the `ValueLoading` sentinel;
`EntityValidator.validate_object` never raises, returning either the empty
message list or the inherited validator's messages. -/
theorem raised_exceptions_characterized (v : EditorValue) (m : String) :
    (set_entity_instance v = Except.error m ↔ v = EditorValue.valueLoading ∧ m = "Wooha") ∧
    (∀ (superValidate : OrmObj → List String) (obj : OrmObj),
      entityValidator_validate_object superValidate obj = [] ∨
      entityValidator_validate_object superValidate obj = superValidate obj) := by
  constructor
  · cases v with
    | valueLoading => simp [set_entity_instance, eq_comm]
    | entity e => simp [set_entity_instance]
    | noEntity => simp [set_entity_instance]
  · intro superValidate obj
    obtain ⟨oid, session⟩ := obj
    cases session with
    | none => left; rfl
    | some s =>
      by_cases hdel : oid ∈ s.deleted
      · left; simp [entityValidator_validate_object, hdel]
      · right; simp [entityValidator_validate_object, hdel]

/-- C5 amended witness: a concrete non-loading value does not raise — by the
characterization, only `ValueLoading` raises. -/
theorem raised_exceptions_characterized_witness :
    set_entity_instance (EditorValue.entity 3) ≠ Except.error "Wooha" := by
  intro h
  have hv := ((raised_exceptions_characterized (EditorValue.entity 3) "Wooha").1.mp h).1
  exact EditorValue.noConfusion hv

/-- C8: `get_or_create` is idempotent and never updates existing rows: after
a first call, a second call with the same key returns the very record of the
first call and leaves the database untouched (so a differing `name` argument
does not change the stored name and no duplicate is created); when no row
matches the key, the first call appends exactly one new row built from its
arguments. -/
theorem get_or_create_idempotent (cdb : List CountryRow) (code n₁ n₂ : String)
    (adb : List AddressRow) (street1 : String) (street2 : Option String) (city : Nat) :
    country_get_or_create (country_get_or_create cdb code n₁).2 code n₂ =
      ((country_get_or_create cdb code n₁).1, (country_get_or_create cdb code n₁).2) ∧
    (cdb.find? (fun c => c.code == code) = none →
      country_get_or_create cdb code n₁ = (⟨code, n₁⟩, cdb ++ [⟨code, n₁⟩])) ∧
    address_get_or_create (address_get_or_create adb street1 street2 city).2
        street1 street2 city =
      ((address_get_or_create adb street1 street2 city).1,
       (address_get_or_create adb street1 street2 city).2) ∧
    (adb.find? (fun a => a.street1 == street1 && a.street2 == street2 && a.city == city) =
        none →
      address_get_or_create adb street1 street2 city =
        (⟨street1, street2, city⟩, adb ++ [⟨street1, street2, city⟩])) := by
  refine ⟨?_, ?_, ?_, ?_⟩
  · cases hf : cdb.find? (fun c => c.code == code) with
    | some c =>
      simp [country_get_or_create, hf]
    | none =>
      have hnew : (⟨code, n₁⟩ : CountryRow).code == code := by simp
      have happ : (cdb ++ [(⟨code, n₁⟩ : CountryRow)]).find? (fun c => c.code == code) =
          some ⟨code, n₁⟩ := by
        rw [find?_append_none _ hf]
        simp [List.find?, hnew]
      simp [country_get_or_create, hf, happ]
  · intro hf
    simp [country_get_or_create, hf]
  · cases hf : adb.find?
        (fun a => a.street1 == street1 && a.street2 == street2 && a.city == city) with
    | some a =>
      simp [address_get_or_create, hf]
    | none =>
      have happ : (adb ++ [(⟨street1, street2, city⟩ : AddressRow)]).find?
          (fun a => a.street1 == street1 && a.street2 == street2 && a.city == city) =
          some ⟨street1, street2, city⟩ := by
        rw [find?_append_none _ hf]
        simp [List.find?]
      simp [address_get_or_create, hf, happ]
  · intro hf
    simp [address_get_or_create, hf]

/-- C8 witness: on an empty database the first call creates the row; a second
call with a different name returns the stored row (name unchanged) and adds
nothing. -/
theorem get_or_create_idempotent_witness :
    country_get_or_create [] "BE" "Belgium" = (⟨"BE", "Belgium"⟩, [⟨"BE", "Belgium"⟩]) ∧
    country_get_or_create [⟨"BE", "Belgium"⟩] "BE" "Belgie" =
      (⟨"BE", "Belgium"⟩, [⟨"BE", "Belgium"⟩]) := by
  have h := get_or_create_idempotent [] "BE" "Belgium" "Belgie" [] "Main" none 3
  have h₁ : country_get_or_create [] "BE" "Belgium" =
      (⟨"BE", "Belgium"⟩, [⟨"BE", "Belgium"⟩]) := h.2.1 rfl
  refine ⟨h₁, ?_⟩
  have h₂ := h.1
  rw [h₁] at h₂
  exact h₂

/-- C6 counterexample: the claim that no entity operation creates related
records fails — on a fresh `PartyAddress` whose hidden street is set,
assigning the virtual attribute `address_city` makes `PartyAddress.__setattr__`
create a related `Address` record. -/
theorem partyAddress_setattr_creates_address :
    ({ partyAddress_new with _address_street1 := some "Main St 1" } :
      PartyAddressObj).address = none ∧
    (partyAddress_set_address_city
      { partyAddress_new with _address_street1 := some "Main St 1" }
      (some 7)).address ≠ none :=
  ⟨rfl, fun h => Option.noConfusion h⟩

/-- C6 amended: the entity classes do contain custom record-maintaining
logic — `PartyAddress.__setattr__` maintains the related `Address` itself
(an assignment to a virtual `address_...` attribute writes through to an
existing related address, and creates the related address from the hidden
street and city as soon as no address exists yet and both are non-null);
`Party._set_contact_mechanism` (the `email`/`phone`/`fax` setters) itself
creates a `ContactMechanism` and a `PartyContactMechanism` record when
setting a mechanism no record matches, and removes and session-deletes the
first matching `PartyContactMechanism` when clearing one;
`PartyContactMechanism.mechanism_setter` itself creates a related
`ContactMechanism` when none exists; and `PartyAdmin.flush` itself deletes
the party's contact-mechanism records when the party is being deleted. -/
theorem partyAddress_maintains_related_address (pa : PartyAddressObj)
    (v : Option Nat) (w : Option String) (described_by : String)
    (value : Option (String × String)) (pcms : List PartyContactMechanismObj)
    (deleted : List Nat) (m : String × String) :
    (pa.address = none → pa._address_street1 ≠ none → v ≠ none →
      (partyAddress_set_address_city pa v).address =
        some { street1 := pa._address_street1, street2 := none, city := v }) ∧
    (∀ a, pa.address = some a →
      (partyAddress_set_address_city pa v).address = some { a with city := v } ∧
      (partyAddress_set_address_street1 pa w).address = some { a with street1 := w }) ∧
    ((∀ pcm ∈ pcms, pcmMatches described_by pcm = false) →
      truthyMechanism value = true →
      _set_contact_mechanism described_by value pcms deleted =
        (pcms ++ [{ id := none, contact_mechanism := some { mechanism := value } }],
         deleted)) ∧
    (∀ l₁ p l₂ i, pcms = l₁ ++ p :: l₂ →
      (∀ q ∈ l₁, pcmMatches described_by q = false) →
      pcmMatches described_by p = true → truthyMechanism value = false →
      p.id = some i → i ≠ 0 →
      _set_contact_mechanism described_by value pcms deleted =
        (l₁ ++ l₂, deleted ++ [i])) ∧
    (∀ pcm : PartyContactMechanismObj, pcm.contact_mechanism = none →
      (mechanism_setter pcm (some m)).contact_mechanism =
        some { mechanism := some m }) ∧
    (∀ (sessionDeleted : List Nat) (partyId : Nat) (ids : List Nat),
      partyId ∈ sessionDeleted →
      ∀ x ∈ ids, x ∈ partyAdmin_flush_deleted sessionDeleted partyId ids) := by
  refine ⟨?_, ?_, ?_, ?_, ?_, ?_⟩
  · intro hnone hs hv
    simp [partyAddress_set_address_city, hnone, partyAddress_maybe_create, hs, hv]
  · intro a ha
    constructor
    · simp [partyAddress_set_address_city, ha]
    · simp [partyAddress_set_address_street1, ha]
  · intro hall htruthy
    exact set_contact_mechanism_creates described_by value deleted pcms hall htruthy
  · rintro l₁ p l₂ i rfl hl₁ hp htruthy hid hi0
    exact set_contact_mechanism_removes described_by value deleted p l₂ i l₁
      hl₁ hp htruthy hid hi0
  · intro pcm hnone
    simp [mechanism_setter, hnone]
  · intro sessionDeleted partyId ids hmem x hx
    simp [partyAdmin_flush_deleted, hmem, hx]

/-- C6 amended witness: concrete instances of each maintenance behavior —
the counterexample's `Address` creation, creating an email
`PartyContactMechanism` on an empty collection, removing and
session-deleting the matching record when the email is cleared, and a
deleted party dragging its contact mechanism into the deleted set. -/
theorem partyAddress_maintains_related_address_witness :
    (partyAddress_set_address_city
      { partyAddress_new with _address_street1 := some "Main St 1" }
      (some 7)).address =
      some { street1 := some "Main St 1", street2 := none, city := some 7 } ∧
    _set_contact_mechanism "email" (some ("email", "a@b.example")) [] [] =
      ([{ id := none,
          contact_mechanism := some { mechanism := some ("email", "a@b.example") } }],
       []) ∧
    _set_contact_mechanism "email" none
      [{ id := some 9,
         contact_mechanism := some { mechanism := some ("email", "a@b.example") } }]
      [] = ([], [9]) ∧
    9 ∈ partyAdmin_flush_deleted [4] 4 [9] := by
  have h := partyAddress_maintains_related_address
    { partyAddress_new with _address_street1 := some "Main St 1" } (some 7) none
    "email" (some ("email", "a@b.example")) [] [] ("email", "a@b.example")
  have h' := partyAddress_maintains_related_address
    { partyAddress_new with _address_street1 := some "Main St 1" } (some 7) none
    "email" none
    [{ id := some 9,
       contact_mechanism := some { mechanism := some ("email", "a@b.example") } }]
    [] ("email", "a@b.example")
  refine ⟨h.1 rfl (fun hx => Option.noConfusion hx) (fun hx => Option.noConfusion hx),
    h.2.2.1 (by simp) (by decide), ?_, h.2.2.2.2.2 [4] 4 [9] (by simp) 9 (by simp)⟩
  have := h'.2.2.2.1 []
    { id := some 9,
      contact_mechanism := some { mechanism := some ("email", "a@b.example") } }
    [] 9 rfl (by simp) (by decide) (by decide) rfl (by decide)
  simpa using this

/-- C1: `change_status(new_status, status_from_date, status_thru_date)`
supersedes the prior status record: with the effective start date
`sfd = status_from_date` (defaulting to today), the first existing record
whose validity interval contains `sfd` — if one exists — gets its
`status_thru_date` set to the day before `sfd` and its audit `thru_date` set
to the day before today, every other record is untouched, and a new record
with `classified_by = new_status` and validity interval
`[sfd, status_thru_date]` (audit interval `[today, end_of_times]`) is
appended; `status_thru_date` defaults to `end_of_times`. -/
theorem change_status_supersedes_prior (history : List StatusHistoryRec)
    (nextId : Nat) (today : Int) (new_status : Nat) (sfdo : Option Int) (thru : Int) :
    ((∀ r ∈ history, containsDate r (sfdo.getD today) = false) →
      (change_status history nextId today new_status sfdo thru).1 =
        history ++ [⟨nextId, new_status, some (sfdo.getD today), some thru,
                     today, end_of_times⟩]) ∧
    (∀ l₁ old l₂, history = l₁ ++ old :: l₂ →
      (∀ r ∈ l₁, containsDate r (sfdo.getD today) = false) →
      containsDate old (sfdo.getD today) = true →
      (change_status history nextId today new_status sfdo thru).1 =
        l₁ ++ { old with status_thru_date := some (sfdo.getD today - 1),
                         thru_date := today - 1 } ::
          (l₂ ++ [⟨nextId, new_status, some (sfdo.getD today), some thru,
                   today, end_of_times⟩])) ∧
    change_status history nextId today new_status none thru =
      change_status history nextId today new_status (some today) thru ∧
    change_status history nextId today new_status sfdo =
      change_status history nextId today new_status sfdo end_of_times := by
  refine ⟨?_, ?_, rfl, rfl⟩
  · intro hnone
    simp only [change_status]
    rw [updateFirst_of_forall_false hnone]
  · rintro l₁ old l₂ rfl hl₁ hold
    simp only [change_status]
    rw [updateFirst_append_left l₁ (old :: l₂) hl₁]
    simp [updateFirst, hold]

/-- C1 witness: a concrete entity with one record valid on the new start date
50: that record is truncated to end on day 49 (audit thru set to day 59, the
day before today 60) and the new record `[50, end_of_times]` is appended. -/
theorem change_status_supersedes_prior_witness :
    (change_status [⟨0, 5, some 0, some 100, 0, end_of_times⟩] 1 60 7 (some 50)
        end_of_times).1 =
      [⟨0, 5, some 0, some 49, 0, 59⟩,
       ⟨1, 7, some 50, some end_of_times, 60, end_of_times⟩] := by
  have h := (change_status_supersedes_prior [⟨0, 5, some 0, some 100, 0, end_of_times⟩]
    1 60 7 (some 50) end_of_times).2.1 [] ⟨0, 5, some 0, some 100, 0, end_of_times⟩ []
    rfl (by simp) (by decide)
  simpa using h

/-- C3: on a status history whose records all have non-null
`status_from_date` and `status_thru_date`, `get_status_history_at(d)` returns
a record of the history whose range contains `d`, returns `None` when no
record's range contains `d`, and uses today's date when called with
`d = None`. -/
theorem get_status_history_at_valid (status : List StatusHistoryRec) (today : Int)
    (sd : Option Int)
    (hnn : ∀ r ∈ status, r.status_from_date ≠ none ∧ r.status_thru_date ≠ none) :
    (∀ h, get_status_history_at status today sd = some h → h ∈ status ∧
      ∃ a b, h.status_from_date = some a ∧ h.status_thru_date = some b ∧
        a ≤ sd.getD today ∧ sd.getD today ≤ b) ∧
    ((∀ r ∈ status, ∀ a b, r.status_from_date = some a → r.status_thru_date = some b →
        ¬(a ≤ sd.getD today ∧ sd.getD today ≤ b)) →
      get_status_history_at status today sd = none) ∧
    (get_status_history_at status today sd = none →
      ∀ r ∈ status, ∀ a b, r.status_from_date = some a → r.status_thru_date = some b →
        ¬(a ≤ sd.getD today ∧ sd.getD today ≤ b)) ∧
    get_status_history_at status today none =
      get_status_history_at status today (some today) := by
  refine ⟨?_, ?_, ?_, rfl⟩
  · intro h hfind
    have hmem : h ∈ status := List.mem_of_find?_eq_some hfind
    have hp := List.find?_some hfind
    obtain ⟨hf, ht⟩ := hnn h hmem
    obtain ⟨a, ha⟩ := Option.ne_none_iff_exists'.mp hf
    obtain ⟨b, hb⟩ := Option.ne_none_iff_exists'.mp ht
    refine ⟨hmem, a, b, ha, hb, ?_⟩
    simpa [py2LeNoneDate, py2GeNoneDate, ha, hb] using hp
  · intro hnone
    apply List.find?_eq_none.mpr
    intro r hr
    obtain ⟨hf, ht⟩ := hnn r hr
    obtain ⟨a, ha⟩ := Option.ne_none_iff_exists'.mp hf
    obtain ⟨b, hb⟩ := Option.ne_none_iff_exists'.mp ht
    simp only [py2LeNoneDate, py2GeNoneDate, ha, hb, Bool.and_eq_true, decide_eq_true_eq,
      not_and]
    intro h1 h2
    exact hnone r hr a b ha hb ⟨h1, h2⟩
  · intro hfind r hr a b ha hb hab
    have := List.find?_eq_none.mp hfind r hr
    simp [py2LeNoneDate, py2GeNoneDate, ha, hb] at this
    exact absurd (this hab.1) (not_lt.mpr hab.2)

/-- C3 witness: on a concrete two-record history, the lookup at day 15
returns the second record, whose range `[10, 20]` contains 15. -/
theorem get_status_history_at_valid_witness :
    get_status_history_at
      [⟨0, 1, some 0, some 9, 0, 0⟩, ⟨1, 2, some 10, some 20, 0, 0⟩] 100 (some 15) =
      some ⟨1, 2, some 10, some 20, 0, 0⟩ ∧
    (⟨1, 2, some 10, some 20, 0, 0⟩ : StatusHistoryRec) ∈
      [⟨0, 1, some 0, some 9, 0, 0⟩, ⟨1, 2, some 10, some 20, 0, 0⟩] := by
  have hfind : get_status_history_at
      [⟨0, 1, some 0, some 9, 0, 0⟩, ⟨1, 2, some 10, some 20, 0, 0⟩] 100 (some 15) =
      some ⟨1, 2, some 10, some 20, 0, 0⟩ := by decide
  have h := (get_status_history_at_valid
    [⟨0, 1, some 0, some 9, 0, 0⟩, ⟨1, 2, some 10, some 20, 0, 0⟩] 100 (some 15)
    (by decide)).1 _ hfind
  exact ⟨hfind, h.1⟩

/-- C4 counterexample: the Python `current_status` and the SQL
`current_status_query` disagree when two records are both valid today — the
Python side returns the first matching record of the collection, the SQL side
the matching row with the greatest id. -/
theorem current_status_query_disagrees :
    current_status [⟨1, 1, some 0, some 100, 0, 0⟩, ⟨2, 2, some 0, some 100, 0, 0⟩] 50 ≠
    current_status_query [⟨1, 1, some 0, some 100, 0, 0⟩, ⟨2, 2, some 0, some 100, 0, 0⟩]
      50 := by
  decide

/-- C4 amended: the Python evaluation of `current_status` and its SQL
expression form yield the same status, provided every record of the status
history has non-null `status_from_date` and `status_thru_date` and at most
one record's validity interval contains today. -/
theorem current_status_refines_query (status : List StatusHistoryRec) (today : Int)
    (hnn : ∀ r ∈ status, r.status_from_date ≠ none ∧ r.status_thru_date ≠ none)
    (huniq : (status.filter (fun r => containsDate r today)).length ≤ 1) :
    current_status status today = current_status_query status today := by
  have hcong : status.find?
      (fun r => py2LeNoneDate r.status_from_date today &&
                py2GeNoneDate r.status_thru_date today) =
      status.find? (fun r => containsDate r today) := by
    apply find?_congr_mem
    intro r hr
    obtain ⟨hf, ht⟩ := hnn r hr
    obtain ⟨a, ha⟩ := Option.ne_none_iff_exists'.mp hf
    obtain ⟨b, hb⟩ := Option.ne_none_iff_exists'.mp ht
    simp [py2LeNoneDate, py2GeNoneDate, containsDate, sqlLeOpt, ha, hb]
  have hcs : current_status status today =
      (status.find? (fun r => containsDate r today)).map (fun r => r.classified_by) := by
    simp only [current_status, get_status_history_at, Option.getD]
    rw [hcong]
  cases hfil : status.filter (fun r => containsDate r today) with
  | nil =>
    have hnone : status.find? (fun r => containsDate r today) = none := by
      rw [List.find?_eq_none]
      intro x hx
      have := List.filter_eq_nil_iff.mp hfil x hx
      simpa using this
    rw [hcs, hnone]
    simp [current_status_query, hfil, orderByIdDesc]
  | cons x xs =>
    have hxs : xs = [] := by
      rw [hfil] at huniq
      simp only [List.length_cons] at huniq
      exact List.length_eq_zero.mp (by omega)
    subst hxs
    have hfind : status.find? (fun r => containsDate r today) = some x :=
      find?_of_filter_singleton hfil
    rw [hcs, hfind]
    simp [current_status_query, hfil, orderByIdDesc, insertByIdDesc]

/-- C4 amended witness: with a single record valid today, both forms return
its classification. -/
theorem current_status_refines_query_witness :
    current_status [⟨1, 1, some 0, some 100, 0, 0⟩] 50 =
      current_status_query [⟨1, 1, some 0, some 100, 0, 0⟩] 50 :=
  current_status_refines_query [⟨1, 1, some 0, some 100, 0, 0⟩] 50 (by decide)
    (by decide)

theorem monotoneInv_step (h : List StatusHistoryRec) (F f t today : Int) (n s : Nat)
    (hinv : MonotoneHistoryInv h F) (hFf : F ≤ f) :
    MonotoneHistoryInv (change_status h n today s (some f) t).1 f := by
  obtain ⟨hnn, hpair⟩ := hinv
  have hnfrom : (⟨n, s, some f, some t, today, end_of_times⟩ :
      StatusHistoryRec).status_from_date = some f := rfl
  have hnthru : (⟨n, s, some f, some t, today, end_of_times⟩ :
      StatusHistoryRec).status_thru_date = some t := rfl
  have hends : ∀ r ∈ h, containsDate r f = false →
      ∃ a b, r.status_from_date = some a ∧ r.status_thru_date = some b ∧ b < f := by
    intro r hr hc
    obtain ⟨a, b, ha, hb, haF⟩ := hnn r hr
    refine ⟨a, b, ha, hb, ?_⟩
    by_contra hbf
    push_neg at hbf
    have : containsDate r f = true := (containsDate_some_iff ha hb f).mpr ⟨by omega, hbf⟩
    rw [hc] at this
    exact Bool.false_ne_true this
  rcases updateFirst_cases (fun r => containsDate r f)
      (fun r => { r with thru_date := today - 1, status_thru_date := some (f - 1) }) h with
    ⟨hall, hupd⟩ | ⟨l₁, x, l₂, rfl, hl₁, hx, hupd⟩
  · -- no record contains f: every old record ends before f
    have e : (change_status h n today s (some f) t).1 =
        h ++ [⟨n, s, some f, some t, today, end_of_times⟩] := by
      simp only [change_status, Option.getD_some]
      rw [hupd]
    rw [e]
    constructor
    · intro r hr
      rcases List.mem_append.mp hr with hr | hr
      · obtain ⟨a, b, ha, hb, haF⟩ := hnn r hr
        exact ⟨a, b, ha, hb, by omega⟩
      · rw [List.mem_singleton.mp hr]
        exact ⟨f, t, rfl, rfl, le_refl f⟩
    · unfold pairwiseNonOverlapping at hpair ⊢
      rw [List.pairwise_append]
      refine ⟨hpair, by simp, ?_⟩
      intro r hr b hb d hcd
      rw [List.mem_singleton.mp hb] at hcd
      obtain ⟨h1, h2⟩ := hcd
      obtain ⟨a, bb, ha, hbb, hbf⟩ := hends r hr (hall r hr)
      have hda := (containsDate_some_iff ha hbb d).mp h1
      have hdb := (containsDate_some_iff hnfrom hnthru d).mp h2
      omega
  · -- the first record containing f is truncated to end on f - 1
    obtain ⟨ax, bx, hax, hbx, haxf, hfbx⟩ := containsDate_true_elim hx
    have hgfrom : ({ x with
        thru_date := today - 1,
        status_thru_date := some (f - 1) } : StatusHistoryRec).status_from_date =
        some ax := hax
    have hgthru : ({ x with
        thru_date := today - 1,
        status_thru_date := some (f - 1) } : StatusHistoryRec).status_thru_date =
        some (f - 1) := rfl
    have hshrink : ∀ d : Int, containsDate { x with
        thru_date := today - 1,
        status_thru_date := some (f - 1) } d = true → containsDate x d = true := by
      intro d hd
      have hd' := (containsDate_some_iff hgfrom hgthru d).mp hd
      exact (containsDate_some_iff hax hbx d).mpr ⟨hd'.1, by omega⟩
    have e : (change_status (l₁ ++ x :: l₂) n today s (some f) t).1 =
        l₁ ++ { x with thru_date := today - 1, status_thru_date := some (f - 1) } ::
          (l₂ ++ [⟨n, s, some f, some t, today, end_of_times⟩]) := by
      simp only [change_status, Option.getD_some]
      rw [hupd]
      simp [List.append_assoc]
    rw [e]
    constructor
    · intro r hr
      rcases List.mem_append.mp hr with hr | hr
      · obtain ⟨a, b, ha, hb, haF⟩ := hnn r (List.mem_append_left _ hr)
        exact ⟨a, b, ha, hb, by omega⟩
      · rcases List.mem_cons.mp hr with rfl | hr
        · exact ⟨ax, f - 1, hgfrom, hgthru, by omega⟩
        · rcases List.mem_append.mp hr with hr | hr
          · obtain ⟨a, b, ha, hb, haF⟩ := hnn r
              (List.mem_append_right _ (List.mem_cons_of_mem x hr))
            exact ⟨a, b, ha, hb, by omega⟩
          · rw [List.mem_singleton.mp hr]
            exact ⟨f, t, rfl, rfl, le_refl f⟩
    · unfold pairwiseNonOverlapping at hpair ⊢
      rw [List.pairwise_append] at hpair
      obtain ⟨hp1, hp2, hcross⟩ := hpair
      rw [List.pairwise_cons] at hp2
      obtain ⟨hx2, hpl₂⟩ := hp2
      rw [List.pairwise_append]
      refine ⟨hp1, ?_, ?_⟩
      · rw [List.pairwise_cons]
        constructor
        · intro b hb d hcd
          obtain ⟨h1, h2⟩ := hcd
          rcases List.mem_append.mp hb with hb | hb
          · exact hx2 b hb d ⟨hshrink d h1, h2⟩
          · rw [List.mem_singleton.mp hb] at h2
            have hd1 := (containsDate_some_iff hgfrom hgthru d).mp h1
            have hd2 := (containsDate_some_iff hnfrom hnthru d).mp h2
            omega
        · rw [List.pairwise_append]
          refine ⟨hpl₂, by simp, ?_⟩
          intro r hr b hb d hcd
          rw [List.mem_singleton.mp hb] at hcd
          obtain ⟨h1, h2⟩ := hcd
          have hrf : containsDate r f = false := by
            rw [Bool.eq_false_iff]
            intro hrf
            exact hx2 r hr f ⟨hx, hrf⟩
          obtain ⟨a, b', ha, hb', hbf⟩ := hends r
            (List.mem_append_right _ (List.mem_cons_of_mem x hr)) hrf
          have hda := (containsDate_some_iff ha hb' d).mp h1
          have hdb := (containsDate_some_iff hnfrom hnthru d).mp h2
          omega
      · intro r hr b hb d hcd
        obtain ⟨h1, h2⟩ := hcd
        rcases List.mem_cons.mp hb with rfl | hb
        · exact hcross r hr x (List.mem_cons_self x l₂) d ⟨h1, hshrink d h2⟩
        · rcases List.mem_append.mp hb with hb | hb
          · exact hcross r hr b (List.mem_cons_of_mem x hb) d ⟨h1, h2⟩
          · rw [List.mem_singleton.mp hb] at h2
            obtain ⟨a, b', ha, hb', hbf⟩ := hends r (List.mem_append_left _ hr) (hl₁ r hr)
            have hda := (containsDate_some_iff ha hb' d).mp h1
            have hdb := (containsDate_some_iff hnfrom hnthru d).mp h2
            omega

theorem runChanges_explicit_aux (today : Int) :
    ∀ (calls : List (Nat × Int × Int)) (h : List StatusHistoryRec) (n : Nat) (F : Int),
      MonotoneHistoryInv h F →
      List.Chain' (fun a b => a ≤ b) (F :: calls.map (fun c => c.2.1)) →
      ∃ F', MonotoneHistoryInv
        (calls.foldl (fun acc c => change_status acc.1 acc.2 today c.1 (some c.2.1) c.2.2)
          (h, n)).1 F' := by
  intro calls
  induction calls with
  | nil => intro h n F hi _; exact ⟨F, hi⟩
  | cons c rest ih =>
    intro h n F hi hchain
    rw [List.map_cons, List.chain'_cons] at hchain
    exact ih _ _ c.2.1 (monotoneInv_step h F c.2.1 c.2.2 today n c.1 hi hchain.1)
      hchain.2

/-- C2 counterexample: two `change_status` calls from an empty history — the
first with start date 10, the second with the earlier start date 5 (both with
`status_thru_date` at the Python default `end_of_times`) — leave two records
whose validity intervals both contain day 10, so the intervals produced by a
sequence of `change_status` calls are not pairwise non-overlapping. -/
theorem change_status_overlapping_counterexample :
    ¬ pairwiseNonOverlapping
      (runChanges 100 [(1, 10, end_of_times), (2, 5, end_of_times)]).1 := by
  intro hp
  have e : (runChanges 100 [(1, 10, end_of_times), (2, 5, end_of_times)]).1 =
      [⟨0, 1, some 10, some end_of_times, 100, end_of_times⟩,
       ⟨1, 2, some 5, some end_of_times, 100, end_of_times⟩] := by rfl
  rw [e] at hp
  unfold pairwiseNonOverlapping at hp
  have h12 := (List.pairwise_cons.mp hp).1 _ (List.mem_cons_self _ _) 10
  exact h12 ⟨by decide, by decide⟩

/-- C2 amended: after any sequence of `change_status` calls on an entity with
an empty initial status history whose effective `status_from_date` arguments
(each defaulting to today when absent) are non-decreasing across calls — the
`status_thru_date` arguments being arbitrary — the validity intervals of the
entity's status-history records are pairwise non-overlapping, so for every
date at most one status classification applies to the entity. -/
theorem runChanges_pairwise_nonoverlapping (today : Int)
    (calls : List (Nat × Int × Int))
    (hmono : List.Chain' (fun a b => a ≤ b) (calls.map (fun c => c.2.1))) :
    pairwiseNonOverlapping (runChanges today calls).1 := by
  cases calls with
  | nil => exact List.Pairwise.nil
  | cons c rest =>
    have hbase : MonotoneHistoryInv [] c.2.1 := ⟨by simp, List.Pairwise.nil⟩
    have hchain : List.Chain' (fun a b => a ≤ b)
        (c.2.1 :: (c :: rest).map (fun x => x.2.1)) :=
      List.chain'_cons.mpr ⟨le_refl _, hmono⟩
    obtain ⟨F', hinv⟩ := runChanges_explicit_aux today (c :: rest) [] 0 c.2.1 hbase hchain
    exact hinv.2

/-- C2 amended witness: two monotone calls with explicit, non-default
`status_thru_date` arguments (start 5 thru 7, then start 10 thru 20) yield
non-overlapping intervals. -/
theorem runChanges_pairwise_nonoverlapping_witness :
    pairwiseNonOverlapping (runChanges 100 [(1, 5, 7), (2, 10, 20)]).1 :=
  runChanges_pairwise_nonoverlapping 100 [(1, 5, 7), (2, 10, 20)]
    (by simp [List.chain'_cons])

end Camelot
